import Mathlib

/-!
# Verification of the EITI data-cleaner entity-resolution core

A shallow embedding of `src/data-cleaner.py` (the entity-resolution /
deduplication engine): text normalization, exact matching via pandas
merges, fuzzy suggestion via `fuzzywuzzy.process.extractOne`, operator
reconciliation, fresh-identifier assignment, and the final merge in
`validate_matching`.

Strings are modelled as lists of Unicode codepoints (`Str := List Nat`).
Tables are lists of rows; pandas index alignment (which is decisive for
the behaviour of `Series.combine_first` in `validate_matching`) is
modelled explicitly with a `Label` type distinguishing the integer
positional labels of the merged frame from the string labels of the
unmatched tables after `set_index`.
-/

set_option autoImplicit false

namespace DataCleaner

/-- A string, modelled as its list of Unicode codepoints. -/
abbrev Str := List Nat

/-- Convenience conversion from a Lean string literal to its codepoints. -/
def ofS (s : String) : Str := s.data.map Char.toNat

/-- One codepoint's transliteration under `unidecode.unidecode`:
ASCII codepoints are passed through unchanged; the accented Latin letters
appearing in the data are mapped to their base letters; codepoints without
a table entry are dropped (transliterated to the empty string). -/
def unidecodeChar (n : Nat) : List Nat :=
  if n < 128 then [n]
  else if n = 233 then [101]  -- é ↦ e
  else if n = 201 then [69]   -- É ↦ E
  else if n = 232 then [101]  -- è ↦ e
  else if n = 224 then [97]   -- à ↦ a
  else if n = 231 then [99]   -- ç ↦ c
  else if n = 244 then [111]  -- ô ↦ o
  else []

/-- One codepoint under Python's `str.upper`, restricted to ASCII (the
only codepoints `preprocess_text` ever uppercases, since `unidecode`
output is ASCII). -/
def upperChar (n : Nat) : Nat :=
  if 97 ≤ n ∧ n ≤ 122 then n - 32 else n

/-- `preprocess_text(text)`: `unidecode.unidecode(text).upper()`. -/
def preprocess_text (s : Str) : Str :=
  (s.flatMap unidecodeChar).map upperChar

/-! ## Data model

`RawRow` is one row of the uploaded CSV before `preprocess_dataset`; a
`none` field models a missing (NaN, non-string) cell. `Row` is a row
after normalization. `RefEntity` is one row of the reference registry
(`unique_companies` / `unique_governments`): a name column and a
pre-existing identifier column. -/

/-- A row of the uploaded table before preprocessing; `none` models a
missing (non-string, NaN) cell in the `Company` or `Government entity`
column. Passthrough columns are irrelevant to matching and omitted. -/
structure RawRow where
  company : Option Str
  gov : Option Str
deriving DecidableEq, Repr

/-- A row of the uploaded table after `preprocess_dataset`. -/
structure Row where
  company : Str
  gov : Str
deriving DecidableEq, Repr

/-- A row of the reference registry: canonical name and pre-existing
identifier (`company_name`/`eiti_id_company`, resp.
`government_entity`/`eiti_id_government`). -/
structure RefEntity where
  name : Str
  eid : Str
deriving DecidableEq, Repr

/-- Python exceptions raised by the pipeline: `missingValue` for
`unidecode`/`str` operations applied to a non-string (NaN) cell,
`noneSubscript` for subscripting the `None` returned by
`process.extractOne` on an empty choice list, `valueError` for pandas'
"cannot reindex from a duplicate axis", raised by
`combine_first`/column assignment when the name-indexed unmatched
series carries duplicate labels. -/
inductive PErr
  | missingValue
  | noneSubscript
  | valueError
deriving DecidableEq, Repr

/-- `Series.apply` over a column whose mapper may raise: the first
exception (in row order) aborts the whole column. -/
def mapExcept {α β : Type} (f : α → Except PErr β) : List α → Except PErr (List β)
  | [] => .ok []
  | a :: as =>
    match f a with
    | .error e => .error e
    | .ok b =>
      match mapExcept f as with
      | .error e => .error e
      | .ok bs => .ok (b :: bs)

/-- `preprocess_dataset(df)`: applies `preprocess_text` to the whole
`Company` column, then to the whole `Government entity` column; a missing
cell raises (a non-string reaches `unidecode.unidecode`). -/
def preprocess_dataset (df : List RawRow) : Except PErr (List Row) :=
  match mapExcept
      (fun r => match r.company with
        | some c => .ok (preprocess_text c)
        | none => .error PErr.missingValue) df with
  | .error e => .error e
  | .ok cs =>
    match mapExcept
        (fun r => match r.gov with
          | some g => .ok (preprocess_text g)
          | none => .error PErr.missingValue) df with
    | .error e => .error e
    | .ok gs => .ok ((cs.zip gs).map fun p => Row.mk p.1 p.2)

/-- The in-place normalization of the registry's name column
(`unique_companies['company_name'] = ...apply(preprocess_text)` and the
government analogue in `main`): every name is overwritten with its
normalized form; identifiers and row order are untouched. -/
def normalizeRegistry (reg : List RefEntity) : List RefEntity :=
  reg.map fun e => RefEntity.mk (preprocess_text e.name) e.eid

/-- `company_matches = pd.merge(df, unique_companies, left_on='Company',
right_on='company_name', how='inner')`, restricted to the two columns
that are later used (`Company`, `eiti_id_company`). An inner merge emits
one row per (upload row, registry row) pair with equal keys, in left
order and, within a key, right (registry) order. -/
def company_matches (df : List Row) (reg : List RefEntity) : List (Str × Str) :=
  df.flatMap fun r =>
    (reg.filter fun e => e.name == r.company).map fun e => (r.company, e.eid)

/-- `gov_matches = pd.merge(df, unique_governments, left_on='Government
entity', right_on='government_entity', how='inner')`, restricted to the
columns `Government entity`, `eiti_id_government`. -/
def gov_matches (df : List Row) (reg : List RefEntity) : List (Str × Str) :=
  df.flatMap fun r =>
    (reg.filter fun e => e.name == r.gov).map fun e => (r.gov, e.eid)

/-- `unmatched_companies = df[~df['Company'].isin(company_matches['Company'])]`. -/
def unmatched_companies (df : List Row) (cm : List (Str × Str)) : List Row :=
  df.filter fun r => !(cm.any fun p => p.1 == r.company)

/-- `unmatched_governments = df[~df['Government entity'].isin(...)]`. -/
def unmatched_governments (df : List Row) (gm : List (Str × Str)) : List Row :=
  df.filter fun r => !(gm.any fun p => p.1 == r.gov)

/-! ## Fuzzy matching

`fuzzywuzzy.process.extractOne(query, choices)` scans the choices,
scoring each against the query with the library's similarity ratio
(modelled as an abstract `scorer` parameter), and returns the
first-encountered highest-scoring choice — or `None` when the choice
list is empty. -/

/-- `process.extractOne(query, choices)` with the library's scorer
abstracted: `none` iff `choices` is empty, otherwise the first choice
attaining the maximal score, with its score. -/
def extractOne (scorer : Str → Str → Nat) (query : Str) (choices : List Str) :
    Option (Str × Nat) :=
  choices.foldl
    (fun best c =>
      match best with
      | none => some (c, scorer query c)
      | some (b, s) =>
        if scorer query c > s then some (c, scorer query c) else some (b, s))
    none

/-- `get_potential_matches(unmatched_series, remote_column)`: applies
`lambda x: process.extractOne(x, remote_column)[0]` down the series;
subscripting the `None` returned on an empty choice list raises a
`TypeError`. -/
def get_potential_matches (scorer : Str → Str → Nat) (series : List Str)
    (pool : List Str) : Except PErr (List Str) :=
  mapExcept
    (fun x =>
      match extractOne scorer x pool with
      | some p => .ok p.1
      | none => .error PErr.noneSubscript)
    series

/-! ## Operator reconciliation (`display_unmatched`) -/

/-- A row of an unmatched table: the record plus its `EITI ID` cell
(initialized to the empty string, possibly set by the operator). The
`Potential_Match` column is dropped: it is never read downstream. -/
structure URow where
  row : Row
  eitiID : Str
deriving DecidableEq, Repr

/-- `display_unmatched` for the company table: per row, the operator's
selectbox choice (`none` = the default `'No potential match'`, `some
name` = a registry name from the offered options) writes the first
registry row with that name's identifier (`.values[0]`) into `EITI ID`;
the default leaves the cell empty. A choice outside the offered registry
names is modelled as leaving the cell empty. -/
def display_unmatched_company (reg : List RefEntity) (urows : List Row)
    (choice : Nat → Option Str) : List URow :=
  urows.enum.map fun ir =>
    match choice ir.1 with
    | none => URow.mk ir.2 []
    | some nm =>
      match (reg.filter fun e => e.name == nm).head? with
      | some e => URow.mk ir.2 e.eid
      | none => URow.mk ir.2 []

/-- `display_unmatched` for the government-entity table. -/
def display_unmatched_gov (reg : List RefEntity) (urows : List Row)
    (choice : Nat → Option Str) : List URow :=
  urows.enum.map fun ir =>
    match choice ir.1 with
    | none => URow.mk ir.2 []
    | some nm =>
      match (reg.filter fun e => e.name == nm).head? with
      | some e => URow.mk ir.2 e.eid
      | none => URow.mk ir.2 []

/-! ## Identifier assignment and the final merge (`validate_matching`) -/

/-- `generate_uuid()` = `str(uuid.uuid4())`: modelled as an injective
fresh supply indexed by how many identifiers the run has generated so
far (a 128-bit random UUID string; freshness, non-emptiness and
in-run distinctness are what the pipeline relies on). -/
def generate_uuid (k : Nat) : Str :=
  List.replicate (k + 1) 35

/-- The two `for index, row in ....iterrows(): if row['EITI ID'] == '':
... = generate_uuid()` loops of `validate_matching`, threading the
generator state: rows whose `EITI ID` is empty get the next fresh
identifier, others are left untouched. Returns the updated table and the
generator state after the loop. -/
def assignFresh (k : Nat) : List URow → List URow × Nat
  | [] => ([], k)
  | u :: us =>
    if u.eitiID = [] then
      let p := assignFresh (k + 1) us
      (URow.mk u.row (generate_uuid k) :: p.1, p.2)
    else
      let p := assignFresh k us
      (u :: p.1, p.2)

/-- A row of `df` after the first left merge of `validate_matching`
(`pd.merge(df, company_matches[['Company', 'eiti_id_company']],
on='Company', how='left')`): `none` models NaN in `eiti_id_company`. -/
structure MRow where
  row : Row
  eidCompany : Option Str
deriving DecidableEq, Repr

/-- A row of the final output table: original columns plus
`eiti_id_company` and `eiti_id_government` (`none` models NaN). -/
structure OutRow where
  row : Row
  eidCompany : Option Str
  eidGov : Option Str
deriving DecidableEq, Repr

/-- The left merge of `df` with `company_matches[['Company',
'eiti_id_company']]` on `'Company'`: a row with no key match is kept
once with NaN; a row with matches is emitted once per matching
`company_matches` row, in their order. -/
def mergeCompany (df : List Row) (cm : List (Str × Str)) : List MRow :=
  df.flatMap fun r =>
    if (cm.filter fun p => p.1 == r.company).isEmpty then [MRow.mk r none]
    else (cm.filter fun p => p.1 == r.company).map fun p => MRow.mk r (some p.2)

/-- The left merge of the previous result with
`gov_matches[['Government entity', 'eiti_id_government']]` on
`'Government entity'`. -/
def mergeGov (rows : List MRow) (gm : List (Str × Str)) : List OutRow :=
  rows.flatMap fun m =>
    if (gm.filter fun p => p.1 == m.row.gov).isEmpty then
      [OutRow.mk m.row m.eidCompany none]
    else (gm.filter fun p => p.1 == m.row.gov).map fun p =>
      OutRow.mk m.row m.eidCompany (some p.2)

/-- A pandas index label: the merged frame carries the integer positional
labels of its fresh `RangeIndex`, while `unmatched_....set_index(name
column)` carries string labels. Labels of the two kinds are never
equal. -/
inductive Label
  | intL : Nat → Label
  | strL : Str → Label
deriving DecidableEq, Repr

/-- Value of the name-indexed series `unmatched_....set_index(name
column)['EITI ID']` at a label: its labels are the (string) names. -/
def lookupLabel (s : List (Str × Str)) (l : Label) : Option Str :=
  (s.find? fun p => Label.strL p.1 == l).map (fun p => p.2)

/-- `df[col] = df[col].combine_first(s)` where `s` is a name-indexed
series. If `s` carries duplicate labels (two unmatched records sharing
a normalized name after `set_index`), the reindexing inside
`combine_first`/the column assignment raises `ValueError: cannot
reindex from a duplicate axis`. Otherwise `combine_first` aligns on
index labels (value at each label of the union: the caller's value if
present and non-null, else `s`'s), and the column assignment re-aligns
the result to `df`'s own (integer-labelled) index: position `i` of the
new column is the old value at integer label `i` if non-null, else
`s`'s value at integer label `i`. -/
def combineFirstAssign (col : List (Option Str)) (s : List (Str × Str)) :
    Except PErr (List (Option Str)) :=
  if (s.map Prod.fst).Nodup then
    .ok ((List.range col.length).map fun i =>
      match col.getD i none with
      | some v => some v
      | none => lookupLabel s (Label.intL i))
  else .error PErr.valueError

/-- `validate_matching(df, company_matches, gov_matches,
unmatched_companies, unmatched_governments)`: the two fresh-identifier
loops, the two left merges, and the two `combine_first` column
assignments (company column first; either can raise `ValueError` on
duplicate unmatched labels). -/
def validate_matching (df : List Row) (cm gm : List (Str × Str))
    (uc ug : List URow) : Except PErr (List OutRow) :=
  let p := assignFresh 0 uc
  let q := assignFresh p.2 ug
  let rows := mergeGov (mergeCompany df cm) gm
  match combineFirstAssign (rows.map fun o => o.eidCompany)
      (p.1.map fun u => (u.row.company, u.eitiID)) with
  | .error e => .error e
  | .ok colC =>
    match combineFirstAssign (rows.map fun o => o.eidGov)
        (q.1.map fun u => (u.row.gov, u.eitiID)) with
    | .error e => .error e
    | .ok colG =>
      .ok ((rows.zip (colC.zip colG)).map fun rc =>
        OutRow.mk rc.1.row rc.2.1 rc.2.2)

/-- The matching pipeline of `main`, from the uploaded table and the
(country-filtered) registries to the downloadable output table:
`preprocess_dataset`, in-place registry normalization, the exact-match
inner merges, the unmatched splits, the fuzzy `Potential_Match` columns
(whose values the operator's selectbox defaults ignore, but whose
computation can raise), `display_unmatched` with the operator's choices,
and `validate_matching`. -/
def main_pipeline (scorer : Str → Str → Nat) (choiceC choiceG : Nat → Option Str)
    (df0 : List RawRow) (regC regG : List RefEntity) :
    Except PErr (List OutRow) :=
  match preprocess_dataset df0 with
  | .error e => .error e
  | .ok df =>
    let regCn := normalizeRegistry regC
    let regGn := normalizeRegistry regG
    let cm := company_matches df regCn
    let gm := gov_matches df regGn
    let uc := unmatched_companies df cm
    let ug := unmatched_governments df gm
    match get_potential_matches scorer (uc.map fun r => r.company)
        (regCn.map fun e => e.name) with
    | .error e => .error e
    | .ok _ =>
      match get_potential_matches scorer (ug.map fun r => r.gov)
          (regGn.map fun e => e.name) with
      | .error e => .error e
      | .ok _ =>
        let ucD := display_unmatched_company regCn uc choiceC
        let ugD := display_unmatched_gov regGn ug choiceG
        validate_matching df cm gm ucD ugD

/-- How many rows of a two-column match table carry a given key. -/
def matchCount (key : Str) (ps : List (Str × Str)) : Nat :=
  (ps.filter fun p => p.1 == key).length

/-- Default row used for positional (`getD`) access to tables. -/
def dU : URow := URow.mk (Row.mk [] []) []

/-! ## Properties of the normalizer -/

theorem unidecodeChar_lt_128 {n m : Nat} (h : m ∈ unidecodeChar n) : m < 128 := by
  unfold unidecodeChar at h
  split_ifs at h <;> simp_all

theorem unidecodeChar_of_lt {n : Nat} (h : n < 128) : unidecodeChar n = [n] := by
  unfold unidecodeChar
  simp [h]

theorem upperChar_lt_128 {n : Nat} (h : n < 128) : upperChar n < 128 := by
  unfold upperChar
  split <;> omega

theorem upperChar_idem (n : Nat) : upperChar (upperChar n) = upperChar n := by
  unfold upperChar
  split_ifs <;> omega

theorem flatMap_unidecodeChar_ascii {l : List Nat} (h : ∀ x ∈ l, x < 128) :
    l.flatMap unidecodeChar = l := by
  induction l with
  | nil => rfl
  | cons a t ih =>
    have ha : a < 128 := h a (by simp)
    simp only [List.flatMap_cons, unidecodeChar_of_lt ha,
      ih (fun x hx => h x (by simp [hx]))]
    rfl

theorem preprocess_text_mem_lt {s : Str} {m : Nat} (h : m ∈ preprocess_text s) :
    m < 128 := by
  unfold preprocess_text at h
  rcases List.mem_map.1 h with ⟨x, hx, rfl⟩
  rcases List.mem_flatMap.1 hx with ⟨c, _, hc⟩
  exact upperChar_lt_128 (unidecodeChar_lt_128 hc)

theorem preprocess_text_idem (s : Str) :
    preprocess_text (preprocess_text s) = preprocess_text s := by
  have hascii : ∀ x ∈ preprocess_text s, x < 128 := fun _ h => preprocess_text_mem_lt h
  conv_lhs => rw [preprocess_text]
  rw [flatMap_unidecodeChar_ascii hascii, preprocess_text, List.map_map]
  exact List.map_congr_left (fun a _ => upperChar_idem a)

/-! ## The `combine_first` index alignment

The merged frame's labels are all of the form `Label.intL i`, while the
name-indexed unmatched series only carries `Label.strL` labels, so the
aligned lookup never finds a value: the two `combine_first` column
assignments of `validate_matching` leave the merged columns unchanged. -/

theorem lookupLabel_intL (s : List (Str × Str)) (i : Nat) :
    lookupLabel s (Label.intL i) = none := by
  unfold lookupLabel
  rw [List.find?_eq_none.2]
  · rfl
  · intro p _
    simp

theorem range_map_getD {α : Type} (l : List α) (d : α) :
    (List.range l.length).map (fun i => l.getD i d) = l := by
  induction l with
  | nil => rfl
  | cons a t ih =>
    rw [List.length_cons, List.range_succ_eq_map, List.map_cons, List.map_map]
    have h : List.map ((fun i => (a :: t).getD i d) ∘ Nat.succ) (List.range t.length)
        = List.map (fun i => t.getD i d) (List.range t.length) :=
      List.map_congr_left (fun i _ => rfl)
    rw [h, ih]
    rfl

/-- The positional value of the aligned-and-reassigned column is the
old column unchanged: integer labels never find a value in the
name-indexed series. -/
theorem alignIntLabels_eq (col : List (Option Str)) (s : List (Str × Str)) :
    ((List.range col.length).map fun i =>
      match col.getD i none with
      | some v => some v
      | none => lookupLabel s (Label.intL i)) = col := by
  have h : ∀ i : Nat,
      (match col.getD i none with
        | some v => some v
        | none => lookupLabel s (Label.intL i)) = col.getD i none := by
    intro i
    rw [lookupLabel_intL]
    cases col.getD i none <;> rfl
  calc (List.range col.length).map (fun i =>
          match col.getD i none with
          | some v => some v
          | none => lookupLabel s (Label.intL i))
      = (List.range col.length).map (fun i => col.getD i none) :=
        List.map_congr_left (fun i _ => h i)
    _ = col := range_map_getD col none

/-- Whenever the `combine_first` assignment does not raise, it returns
the column unchanged. -/
theorem combineFirstAssign_ok {col col' : List (Option Str)}
    {s : List (Str × Str)} (h : combineFirstAssign col s = .ok col') :
    col' = col := by
  unfold combineFirstAssign at h
  split at h
  · injection h with h2
    rw [← h2, alignIntLabels_eq]
  · cases h

/-- With unique labels in the name-indexed series, the `combine_first`
assignment succeeds and returns the column unchanged. -/
theorem combineFirstAssign_eq (col : List (Option Str)) (s : List (Str × Str))
    (hs : (s.map Prod.fst).Nodup) :
    combineFirstAssign col s = .ok col := by
  unfold combineFirstAssign
  rw [if_pos hs, alignIntLabels_eq]

/-- With duplicate labels in the name-indexed series, the
`combine_first` assignment raises `ValueError`. -/
theorem combineFirstAssign_error (col : List (Option Str)) (s : List (Str × Str))
    (hs : ¬ (s.map Prod.fst).Nodup) :
    combineFirstAssign col s = .error PErr.valueError := by
  unfold combineFirstAssign
  rw [if_neg hs]

theorem zip_self_columns (rows : List OutRow) :
    (rows.zip ((rows.map fun o => o.eidCompany).zip
        (rows.map fun o => o.eidGov))).map
      (fun rc => OutRow.mk rc.1.row rc.2.1 rc.2.2) = rows := by
  induction rows with
  | nil => rfl
  | cons o t ih =>
    simp only [List.map_cons, List.zip_cons_cons]
    rw [ih]

/-- The fresh-identifier loop never touches the record fields of the
unmatched table, so any per-row key is preserved. -/
theorem assignFresh_map_key (k : Nat) (uc : List URow) (f : Row → Str) :
    (assignFresh k uc).1.map (fun u => f u.row) = uc.map (fun u => f u.row) := by
  induction uc generalizing k with
  | nil => rfl
  | cons u us ih =>
    by_cases h : u.eitiID = [] <;> simp [assignFresh, h, ih]

/-- Whenever `validate_matching` returns a table, that table is exactly
the two left merges: because the `combine_first` assignments align
integer labels against name labels, the freshly generated identifiers
and the operator-accepted identifiers held in the unmatched tables
never reach the output. -/
theorem validate_matching_ok {df : List Row} {cm gm : List (Str × Str)}
    {uc ug : List URow} {out : List OutRow}
    (h : validate_matching df cm gm uc ug = .ok out) :
    out = mergeGov (mergeCompany df cm) gm := by
  unfold validate_matching at h
  dsimp only [] at h
  split at h
  · cases h
  · next colC hC =>
    split at h
    · cases h
    · next colG hG =>
      injection h with h2
      rw [← h2, combineFirstAssign_ok hC, combineFirstAssign_ok hG]
      exact zip_self_columns (mergeGov (mergeCompany df cm) gm)

/-- When every normalized company name is unique among the unmatched
company rows, and likewise for the government rows, `validate_matching`
does not raise: it returns exactly the two left merges. -/
theorem validate_matching_eq (df : List Row) (cm gm : List (Str × Str))
    (uc ug : List URow)
    (huc : (uc.map fun u => u.row.company).Nodup)
    (hug : (ug.map fun u => u.row.gov).Nodup) :
    validate_matching df cm gm uc ug
      = .ok (mergeGov (mergeCompany df cm) gm) := by
  have hkc : (((assignFresh 0 uc).1.map fun u => (u.row.company, u.eitiID)).map
      Prod.fst).Nodup := by
    rw [List.map_map]
    have he : ((assignFresh 0 uc).1.map (Prod.fst ∘ fun u => (u.row.company, u.eitiID)))
        = (assignFresh 0 uc).1.map (fun u => u.row.company) :=
      List.map_congr_left (fun u _ => rfl)
    rw [he, assignFresh_map_key]
    exact huc
  have hkg : (((assignFresh (assignFresh 0 uc).2 ug).1.map
      fun u => (u.row.gov, u.eitiID)).map Prod.fst).Nodup := by
    rw [List.map_map]
    have he : ((assignFresh (assignFresh 0 uc).2 ug).1.map
        (Prod.fst ∘ fun u => (u.row.gov, u.eitiID)))
        = (assignFresh (assignFresh 0 uc).2 ug).1.map (fun u => u.row.gov) :=
      List.map_congr_left (fun u _ => rfl)
    rw [he, assignFresh_map_key]
    exact hug
  unfold validate_matching
  dsimp only []
  rw [combineFirstAssign_eq _ _ hkc, combineFirstAssign_eq _ _ hkg]
  exact congrArg Except.ok (zip_self_columns (mergeGov (mergeCompany df cm) gm))

/-! ## Row multiplicities of the left merges -/

theorem mergeGov_length (rows : List MRow) (gm : List (Str × Str)) :
    (mergeGov rows gm).length
      = (rows.map (fun m => max 1 (matchCount m.row.gov gm))).sum := by
  induction rows with
  | nil => rfl
  | cons m t ih =>
    have hcons : mergeGov (m :: t) gm
        = (if (gm.filter fun p => p.1 == m.row.gov).isEmpty then
             [OutRow.mk m.row m.eidCompany none]
           else (gm.filter fun p => p.1 == m.row.gov).map fun p =>
             OutRow.mk m.row m.eidCompany (some p.2))
          ++ mergeGov t gm := rfl
    rw [hcons, List.length_append, ih, List.map_cons, List.sum_cons]
    congr 1
    by_cases h : (gm.filter fun p => p.1 == m.row.gov).isEmpty
    · have hnil : (gm.filter fun p => p.1 == m.row.gov) = [] :=
        List.isEmpty_iff.1 h
      simp [matchCount, h, hnil]
    · have hne : (gm.filter fun p => p.1 == m.row.gov) ≠ [] := by
        simpa [List.isEmpty_iff] using h
      have hpos : 1 ≤ (gm.filter fun p => p.1 == m.row.gov).length :=
        List.length_pos.2 hne
      simp only [if_neg h, List.length_map, matchCount]
      omega

theorem mergeCompany_map_sum (df : List Row) (cm : List (Str × Str))
    (F : Row → Nat) :
    ((mergeCompany df cm).map (fun m => F m.row)).sum
      = (df.map (fun r => max 1 (matchCount r.company cm) * F r)).sum := by
  induction df with
  | nil => rfl
  | cons r t ih =>
    have hcons : mergeCompany (r :: t) cm
        = (if (cm.filter fun p => p.1 == r.company).isEmpty then [MRow.mk r none]
           else (cm.filter fun p => p.1 == r.company).map fun p => MRow.mk r (some p.2))
          ++ mergeCompany t cm := rfl
    rw [hcons, List.map_append, List.sum_append, ih, List.map_cons, List.sum_cons]
    congr 1
    by_cases h : (cm.filter fun p => p.1 == r.company).isEmpty
    · have hnil : (cm.filter fun p => p.1 == r.company) = [] :=
        List.isEmpty_iff.1 h
      simp [matchCount, h, hnil]
    · have hne : (cm.filter fun p => p.1 == r.company) ≠ [] := by
        simpa [List.isEmpty_iff] using h
      have hpos : 1 ≤ (cm.filter fun p => p.1 == r.company).length :=
        List.length_pos.2 hne
      simp only [if_neg h, List.map_map]
      have hconst : ((cm.filter fun p => p.1 == r.company).map
          ((fun m => F m.row) ∘ (fun p => MRow.mk r (some p.2))))
          = List.replicate (cm.filter fun p => p.1 == r.company).length (F r) := by
        rw [← List.map_const']
        exact List.map_congr_left (fun p _ => rfl)
      rw [hconst, List.sum_replicate, smul_eq_mul, matchCount]
      have hmax : max 1 (cm.filter fun p => p.1 == r.company).length
          = (cm.filter fun p => p.1 == r.company).length := by omega
      rw [hmax]

/-- The number of rows of the two left merges: each input row is
multiplied by its number of company matches (at least one row when
unmatched) and its number of government matches. -/
theorem merged_rows_length (df : List Row) (cm gm : List (Str × Str)) :
    (mergeGov (mergeCompany df cm) gm).length
      = (df.map (fun r => max 1 (matchCount r.company cm)
          * max 1 (matchCount r.gov gm))).sum := by
  rw [mergeGov_length]
  exact mergeCompany_map_sum df cm (fun r => max 1 (matchCount r.gov gm))

/-- Over a match table whose keys are pairwise distinct, every key
matches at most one row. -/
theorem matchCount_le_one {ps : List (Str × Str)}
    (h : (ps.map Prod.fst).Nodup) (c : Str) : matchCount c ps ≤ 1 := by
  induction ps with
  | nil => simp [matchCount]
  | cons p t ih =>
    rw [List.map_cons, List.nodup_cons] at h
    obtain ⟨hp, ht⟩ := h
    by_cases hc : (p.1 == c) = true
    · have hpc : p.1 = c := by simpa using hc
      have hft : t.filter (fun q => q.1 == c) = [] := by
        rw [List.filter_eq_nil_iff]
        intro q hq
        simp only [beq_iff_eq]
        intro hqc
        exact hp (by rw [hpc, ← hqc]; exact List.mem_map_of_mem Prod.fst hq)
      simp [matchCount, List.filter_cons, hc, hft]
    · have := ih ht
      simp only [matchCount, List.filter_cons, hc] at *
      simpa using this

/-! ## Error propagation in `Series.apply` -/

theorem mapExcept_error_of_mem {α β : Type} (f : α → Except PErr β)
    (l : List α) (a : α) (ha : a ∈ l)
    (hfa : f a = .error PErr.missingValue)
    (hall : ∀ x ∈ l, f x = .error PErr.missingValue ∨ ∃ b, f x = .ok b) :
    mapExcept f l = .error PErr.missingValue := by
  induction l with
  | nil => simp at ha
  | cons x t ih =>
    rcases hall x (by simp) with hx | ⟨b, hb⟩
    · simp [mapExcept, hx]
    · have hat : a ∈ t := by
        rcases List.mem_cons.1 ha with rfl | h
        · rw [hfa] at hb
          cases hb
        · exact h
      simp only [mapExcept, hb]
      rw [ih hat (fun y hy => hall y (by simp [hy]))]

theorem mapExcept_ok_of_all {α β : Type} (f : α → Except PErr β)
    (l : List α) (hall : ∀ x ∈ l, ∃ b, f x = .ok b) :
    ∃ bs, mapExcept f l = .ok bs := by
  induction l with
  | nil => exact ⟨[], rfl⟩
  | cons x t ih =>
    obtain ⟨b, hb⟩ := hall x (by simp)
    obtain ⟨bs, hbs⟩ := ih (fun y hy => hall y (by simp [hy]))
    exact ⟨b :: bs, by simp [mapExcept, hb, hbs]⟩

/-! ## The fresh-identifier loops -/

theorem generate_uuid_injective {a b : Nat}
    (h : generate_uuid a = generate_uuid b) : a = b := by
  have hl := congrArg List.length h
  simpa [generate_uuid] using hl

theorem generate_uuid_ne_empty (a : Nat) : generate_uuid a ≠ [] := by
  simp [generate_uuid]

theorem assignFresh_fst_length (k : Nat) (uc : List URow) :
    (assignFresh k uc).1.length = uc.length := by
  induction uc generalizing k with
  | nil => rfl
  | cons u us ih =>
    by_cases h : u.eitiID = [] <;> simp [assignFresh, h, ih]

/-- A row whose `EITI ID` was already set is left untouched by the
fresh-identifier loop. -/
theorem assignFresh_preserves (k : Nat) (uc : List URow) (i : Nat)
    (hi : i < uc.length) (hne : (uc.getD i dU).eitiID ≠ []) :
    ((assignFresh k uc).1.getD i dU).eitiID = (uc.getD i dU).eitiID := by
  induction uc generalizing k i with
  | nil => simp at hi
  | cons u us ih =>
    cases i with
    | zero =>
      by_cases h : u.eitiID = []
      · simp [h] at hne
      · simp [assignFresh, h]
    | succ n =>
      have hn : n < us.length := by simpa using hi
      have hne' : (us.getD n dU).eitiID ≠ [] := by simpa using hne
      by_cases h : u.eitiID = [] <;>
        simpa [assignFresh, h] using ih _ n hn hne'

/-- A row whose `EITI ID` was empty receives exactly the next fresh
identifier: the generator state `k` plus the number of empty rows
before it. -/
theorem assignFresh_value (k : Nat) (uc : List URow) (i : Nat)
    (hi : i < uc.length) (he : (uc.getD i dU).eitiID = []) :
    ((assignFresh k uc).1.getD i dU).eitiID
      = generate_uuid (k + (uc.take i).countP (fun u => u.eitiID == [])) := by
  induction uc generalizing k i with
  | nil => simp at hi
  | cons u us ih =>
    cases i with
    | zero =>
      have h : u.eitiID = [] := by simpa using he
      simp [assignFresh, h]
    | succ n =>
      have hn : n < us.length := by simpa using hi
      have he' : (us.getD n dU).eitiID = [] := by simpa using he
      by_cases h : u.eitiID = []
      · have := ih (k + 1) n hn he'
        simp only [assignFresh, if_pos h, List.getD_cons_succ, List.take_succ_cons,
          List.countP_cons, this]
        have hb : (u.eitiID == ([] : Str)) = true := by simp [h]
        have hone : (if true = true then 1 else 0) = 1 := rfl
        rw [hb, hone]
        congr 1
        omega
      · have := ih k n hn he'
        simp only [assignFresh, if_neg h, List.getD_cons_succ, List.take_succ_cons,
          List.countP_cons, this]
        have hb : (u.eitiID == ([] : Str)) = false := by simp [h]
        have hzero : (if false = true then 1 else 0) = 0 := rfl
        rw [hb, hzero]
        congr 1

/-- The generator state is threaded left to right, so the two loops of
`validate_matching` together behave as one loop over the concatenated
tables. -/
theorem assignFresh_append (k : Nat) (uc ug : List URow) :
    assignFresh k (uc ++ ug)
      = ((assignFresh k uc).1 ++ (assignFresh (assignFresh k uc).2 ug).1,
         (assignFresh (assignFresh k uc).2 ug).2) := by
  induction uc generalizing k with
  | nil => simp [assignFresh]
  | cons u us ih =>
    by_cases h : u.eitiID = [] <;> simp [assignFresh, h, ih]

/-- Strictly more empty rows lie before position `j` than before
position `i` when `i < j` and row `i` itself is empty. -/
theorem countP_take_strict (L : List URow) (i j : Nat) (hij : i < j)
    (hi : i < L.length) (hP : (L.getD i dU).eitiID = []) :
    (L.take i).countP (fun u => u.eitiID == [])
      < (L.take j).countP (fun u => u.eitiID == []) := by
  induction L generalizing i j with
  | nil => simp at hi
  | cons a t ih =>
    cases i with
    | zero =>
      cases j with
      | zero => omega
      | succ m =>
        have ha : a.eitiID = [] := by simpa using hP
        simp [List.take_succ_cons, List.countP_cons, ha]
    | succ n =>
      cases j with
      | zero => omega
      | succ m =>
        have hn : n < t.length := by simpa using hi
        have hP' : (t.getD n dU).eitiID = [] := by simpa using hP
        have := ih n m (by omega) hn hP'
        simp only [List.take_succ_cons, List.countP_cons]
        omega

/-! ## Membership structure of the merges -/

theorem mem_mergeGov {rows : List MRow} {gm : List (Str × Str)} {o : OutRow}
    (ho : o ∈ mergeGov rows gm) :
    ∃ m ∈ rows, o.row = m.row ∧ o.eidCompany = m.eidCompany := by
  rcases List.mem_flatMap.1 ho with ⟨m, hm, hpr⟩
  refine ⟨m, hm, ?_⟩
  split at hpr
  · have : o = OutRow.mk m.row m.eidCompany none := List.mem_singleton.1 hpr
    subst this
    exact ⟨rfl, rfl⟩
  · rcases List.mem_map.1 hpr with ⟨p, _, rfl⟩
    exact ⟨rfl, rfl⟩

theorem mem_mergeCompany {df : List Row} {cm : List (Str × Str)} {m : MRow}
    (hm : m ∈ mergeCompany df cm) :
    m.row ∈ df ∧
    ((cm.filter fun p => p.1 == m.row.company) = [] ∧ m.eidCompany = none ∨
      ∃ p ∈ cm, p.1 = m.row.company ∧ m.eidCompany = some p.2) := by
  rcases List.mem_flatMap.1 hm with ⟨r, hr, hpr⟩
  split at hpr
  · next h =>
    have : m = MRow.mk r none := List.mem_singleton.1 hpr
    subst this
    exact ⟨hr, Or.inl ⟨List.isEmpty_iff.1 h, rfl⟩⟩
  · rcases List.mem_map.1 hpr with ⟨p, hp, rfl⟩
    have hp' := List.mem_filter.1 hp
    exact ⟨hr, Or.inr ⟨p, hp'.1, by simpa using hp'.2, rfl⟩⟩

theorem company_matches_mem_of {df : List Row} {reg : List RefEntity}
    {r : Row} {e : RefEntity} (hr : r ∈ df) (he : e ∈ reg)
    (hn : e.name = r.company) :
    (r.company, e.eid) ∈ company_matches df reg :=
  List.mem_flatMap.2
    ⟨r, hr, List.mem_map.2 ⟨e, List.mem_filter.2 ⟨he, by simp [hn]⟩, rfl⟩⟩

theorem company_matches_mem_inv {df : List Row} {reg : List RefEntity}
    {p : Str × Str} (hp : p ∈ company_matches df reg) :
    ∃ e ∈ reg, e.name = p.1 ∧ e.eid = p.2 := by
  rcases List.mem_flatMap.1 hp with ⟨r, _, hpr⟩
  rcases List.mem_map.1 hpr with ⟨e, he, rfl⟩
  have he' := List.mem_filter.1 he
  exact ⟨e, he'.1, by simpa using he'.2, rfl⟩

/-- Inversion of a successful pipeline run: preprocessing succeeded, and
(by `validate_matching_ok`) the output is exactly the two left merges of
the preprocessed table against the exact-match tables of the normalized
registries. -/
theorem main_pipeline_ok {scorer : Str → Str → Nat}
    {choiceC choiceG : Nat → Option Str} {df0 : List RawRow}
    {regC regG : List RefEntity} {out : List OutRow}
    (h : main_pipeline scorer choiceC choiceG df0 regC regG = .ok out) :
    ∃ df, preprocess_dataset df0 = .ok df ∧
      out = mergeGov
        (mergeCompany df (company_matches df (normalizeRegistry regC)))
        (gov_matches df (normalizeRegistry regG)) := by
  unfold main_pipeline at h
  split at h
  · cases h
  · next df hdf =>
    refine ⟨df, hdf, ?_⟩
    dsimp only [] at h
    split at h
    · cases h
    · split at h
      · cases h
      · exact validate_matching_ok h

/-! ## Claims -/

/-- C3: the normalization function `preprocess_text` is idempotent —
for every input string `x`, `preprocess_text (preprocess_text x) =
preprocess_text x` — and it is case- and accent-insensitive:
`preprocess_text "Société" = preprocess_text "SOCIETE"`. -/
theorem preprocess_text_idempotent_accent_insensitive :
    (∀ s : Str, preprocess_text (preprocess_text s) = preprocess_text s) ∧
    preprocess_text (ofS "Société") = preprocess_text (ofS "SOCIETE") :=
  ⟨preprocess_text_idem, by decide⟩

/-- C1 (refuted by the code): a record whose company name has no exact
registry match ends the full pipeline with an *empty* (NaN)
`eiti_id_company` field, even though a fresh identifier was minted for
it in the unmatched table: the `combine_first` calls of
`validate_matching` align the merged frame's integer index against the
name-keyed unmatched series, so the minted identifier never reaches the
output row. -/
theorem unmatched_record_identifier_left_empty :
    main_pipeline (fun _ _ => 0) (fun _ => none) (fun _ => none)
      [RawRow.mk (some (ofS "Newco")) (some (ofS "Gova"))]
      [RefEntity.mk (ofS "Acme") (ofS "A1")]
      [RefEntity.mk (ofS "Gova") (ofS "G1")]
    = .ok [OutRow.mk (Row.mk (ofS "NEWCO") (ofS "GOVA")) none (some (ofS "G1"))] :=
  rfl

/-- C4 counterexample: with two registry entries sharing the normalized
name `X` (identifiers `A1` and `B2`) and one uploaded record named `X`,
the pipeline emits *two* output rows for that record — one per matching
reference entity — not a single row matched to the first entity: the
exact-match inner merge keeps every matching registry row and the later
left merge duplicates the record accordingly. -/
theorem duplicate_registry_names_duplicate_output_rows :
    main_pipeline (fun _ _ => 0) (fun _ => none) (fun _ => none)
      [RawRow.mk (some (ofS "X")) (some (ofS "G"))]
      [RefEntity.mk (ofS "X") (ofS "A1"), RefEntity.mk (ofS "X") (ofS "B2")]
      [RefEntity.mk (ofS "G") (ofS "G1")]
    = .ok [OutRow.mk (Row.mk (ofS "X") (ofS "G")) (some (ofS "A1")) (some (ofS "G1")),
           OutRow.mk (Row.mk (ofS "X") (ofS "G")) (some (ofS "B2")) (some (ofS "G1"))] ∧
    [OutRow.mk (Row.mk (ofS "X") (ofS "G")) (some (ofS "A1")) (some (ofS "G1")),
     OutRow.mk (Row.mk (ofS "X") (ofS "G")) (some (ofS "B2")) (some (ofS "G1"))].length ≠ 1 :=
  ⟨rfl, by decide⟩

/-- C5 counterexample: with one uploaded record and an *empty* company
registry, the pipeline does not carry the record to the unresolved state
— it raises: `process.extractOne` returns `None` on an empty choice
list and `get_potential_matches` subscripts it (`[0]`), a `TypeError`. -/
theorem empty_candidate_pool_raises :
    main_pipeline (fun _ _ => 0) (fun _ => none) (fun _ => none)
      [RawRow.mk (some (ofS "X")) (some (ofS "G"))]
      []
      [RefEntity.mk (ofS "G") (ofS "G1")]
    = .error PErr.noneSubscript :=
  rfl

/-- C5 amended: when the candidate pool is empty and at least one record
is unmatched, `get_potential_matches` fails with the `TypeError` from
subscripting `None` (for every scorer and series contents), instead of
returning "no suggestion". -/
theorem get_potential_matches_empty_pool_error (scorer : Str → Str → Nat)
    (x : Str) (xs : List Str) :
    get_potential_matches scorer (x :: xs) [] = .error PErr.noneSubscript :=
  rfl

/-- C7 counterexample: the registry *is* written by the core — the name
column is overwritten in place with its normalized form (`Société` ↦
`SOCIETE`), so a `ReferenceEntity`'s name field does not keep the value
it had when the registry was loaded. -/
theorem registry_name_column_overwritten :
    normalizeRegistry [RefEntity.mk (ofS "Société") (ofS "A1")]
      = [RefEntity.mk (ofS "SOCIETE") (ofS "A1")] ∧
    normalizeRegistry [RefEntity.mk (ofS "Société") (ofS "A1")]
      ≠ [RefEntity.mk (ofS "Société") (ofS "A1")] :=
  ⟨rfl, by decide⟩

/-- C7 amended: the in-place registry normalization never touches the
identifier column, never adds or removes entries, and replaces each name
by exactly its normalized form. -/
theorem normalizeRegistry_frame (reg : List RefEntity) :
    (normalizeRegistry reg).map (fun e => e.eid) = reg.map (fun e => e.eid) ∧
    (normalizeRegistry reg).map (fun e => e.name)
      = reg.map (fun e => preprocess_text e.name) ∧
    (normalizeRegistry reg).length = reg.length := by
  refine ⟨?_, ?_, ?_⟩ <;> simp [normalizeRegistry]

/-- C6: the fresh-identifier loop never overwrites an already-resolved
row: a row whose `EITI ID` is non-empty before the loop keeps exactly
its old value, and only rows with an empty `EITI ID` receive a newly
minted identifier. -/
theorem assigner_preserves_resolved_ids (k : Nat) (uc : List URow) (i : Nat)
    (hi : i < uc.length) :
    ((uc.getD i dU).eitiID ≠ [] →
      ((assignFresh k uc).1.getD i dU).eitiID = (uc.getD i dU).eitiID) ∧
    ((uc.getD i dU).eitiID = [] →
      ∃ m, ((assignFresh k uc).1.getD i dU).eitiID = generate_uuid m) :=
  ⟨fun hne => assignFresh_preserves k uc i hi hne,
   fun he => ⟨_, assignFresh_value k uc i hi he⟩⟩

/-- C6 witness: a concrete two-row unmatched table whose first row is
already resolved (`EITI ID = "A1"`): the loop leaves it unchanged. -/
theorem assigner_preserves_resolved_ids_witness :
    0 < ([URow.mk (Row.mk [] []) (ofS "A1"), URow.mk (Row.mk [] []) []] : List URow).length ∧
    ((((([URow.mk (Row.mk [] []) (ofS "A1"), URow.mk (Row.mk [] []) []] : List URow).getD 0 dU).eitiID ≠ []) →
      ((assignFresh 0 [URow.mk (Row.mk [] []) (ofS "A1"), URow.mk (Row.mk [] []) []]).1.getD 0 dU).eitiID
        = (([URow.mk (Row.mk [] []) (ofS "A1"), URow.mk (Row.mk [] []) []] : List URow).getD 0 dU).eitiID) ∧
     ((([URow.mk (Row.mk [] []) (ofS "A1"), URow.mk (Row.mk [] []) []] : List URow).getD 0 dU).eitiID = [] →
      ∃ m, ((assignFresh 0 [URow.mk (Row.mk [] []) (ofS "A1"), URow.mk (Row.mk [] []) []]).1.getD 0 dU).eitiID
        = generate_uuid m)) :=
  ⟨by decide,
   assigner_preserves_resolved_ids 0
     [URow.mk (Row.mk [] []) (ofS "A1"), URow.mk (Row.mk [] []) []] 0 (by decide)⟩

/-- C8: freshly minted identifiers are unique within a run. The two
loops of `validate_matching` thread one generator (companies first,
then governments, starting from the companies' final state); any two
distinct rows of the concatenated tables that are still unresolved
(empty `EITI ID`) when the loops run receive distinct identifiers —
with `generate_uuid` modelled as an injective fresh supply. -/
theorem fresh_identifiers_distinct (k : Nat) (uc ug : List URow) (i j : Nat)
    (hi : i < uc.length + ug.length) (hj : j < uc.length + ug.length)
    (hij : i ≠ j)
    (h1 : ((uc ++ ug).getD i dU).eitiID = [])
    (h2 : ((uc ++ ug).getD j dU).eitiID = []) :
    (((assignFresh k uc).1 ++ (assignFresh (assignFresh k uc).2 ug).1).getD i dU).eitiID
      ≠ (((assignFresh k uc).1 ++ (assignFresh (assignFresh k uc).2 ug).1).getD j dU).eitiID := by
  have happ : (assignFresh k uc).1 ++ (assignFresh (assignFresh k uc).2 ug).1
      = (assignFresh k (uc ++ ug)).1 := by
    rw [assignFresh_append]
  rw [happ]
  have hi' : i < (uc ++ ug).length := by simpa [List.length_append] using hi
  have hj' : j < (uc ++ ug).length := by simpa [List.length_append] using hj
  rw [assignFresh_value k (uc ++ ug) i hi' h1,
    assignFresh_value k (uc ++ ug) j hj' h2]
  intro hcontra
  have heq := generate_uuid_injective hcontra
  rcases Nat.lt_or_ge i j with hlt | hge
  · have := countP_take_strict (uc ++ ug) i j hlt hi' h1
    omega
  · have hgt : j < i := by omega
    have := countP_take_strict (uc ++ ug) j i hgt hj' h2
    omega

/-- C8 witness: one unresolved company row and one unresolved
government row receive distinct fresh identifiers. -/
theorem fresh_identifiers_distinct_witness :
    ((([URow.mk (Row.mk [] []) []] ++ [URow.mk (Row.mk [] []) []] : List URow).getD 0 dU).eitiID = []) ∧
    ((([URow.mk (Row.mk [] []) []] ++ [URow.mk (Row.mk [] []) []] : List URow).getD 1 dU).eitiID = []) ∧
    (((assignFresh 0 [URow.mk (Row.mk [] []) []]).1
        ++ (assignFresh (assignFresh 0 [URow.mk (Row.mk [] []) []]).2
            [URow.mk (Row.mk [] []) []]).1).getD 0 dU).eitiID
      ≠ (((assignFresh 0 [URow.mk (Row.mk [] []) []]).1
        ++ (assignFresh (assignFresh 0 [URow.mk (Row.mk [] []) []]).2
            [URow.mk (Row.mk [] []) []]).1).getD 1 dU).eitiID :=
  ⟨by decide, by decide,
   fresh_identifiers_distinct 0 [URow.mk (Row.mk [] []) []] [URow.mk (Row.mk [] []) []]
     0 1 (by decide) (by decide) (by decide) (by decide) (by decide)⟩

/-- C4 amended: when a record's normalized name matches several
reference entities, the exact matcher does not pick a single first
match: the inner merge keeps every matching registry row, and whenever
`validate_matching` returns a table that table has one output row per
combination of company and government matches — `max 1 (#company
matches) * max 1 (#government matches)` rows per input record — each
carrying the respective entity's identifier; the duplication itself is
non-fatal. -/
theorem exact_match_keeps_all_duplicates (df : List Row)
    (cm gm : List (Str × Str)) (uc ug : List URow) (out : List OutRow)
    (h : validate_matching df cm gm uc ug = .ok out) :
    out.length
      = (df.map (fun r => max 1 (matchCount r.company cm)
          * max 1 (matchCount r.gov gm))).sum := by
  rw [validate_matching_ok h]
  exact merged_rows_length df cm gm

/-- C4 amended witness: one record named `X` against a match table with
two `X` entries: `validate_matching` returns two rows, as the
multiplicity formula predicts (`max 1 2 * max 1 1 = 2`). -/
theorem exact_match_keeps_all_duplicates_witness :
    validate_matching [Row.mk (ofS "X") (ofS "G")]
      [(ofS "X", ofS "A1"), (ofS "X", ofS "B2")] [(ofS "G", ofS "G1")] [] []
      = .ok [OutRow.mk (Row.mk (ofS "X") (ofS "G")) (some (ofS "A1")) (some (ofS "G1")),
             OutRow.mk (Row.mk (ofS "X") (ofS "G")) (some (ofS "B2")) (some (ofS "G1"))] ∧
    ([OutRow.mk (Row.mk (ofS "X") (ofS "G")) (some (ofS "A1")) (some (ofS "G1")),
      OutRow.mk (Row.mk (ofS "X") (ofS "G")) (some (ofS "B2")) (some (ofS "G1"))] : List OutRow).length
      = (([Row.mk (ofS "X") (ofS "G")] : List Row).map
          (fun r => max 1 (matchCount r.company
              [(ofS "X", ofS "A1"), (ofS "X", ofS "B2")])
            * max 1 (matchCount r.gov [(ofS "G", ofS "G1")]))).sum :=
  ⟨rfl,
   exact_match_keeps_all_duplicates [Row.mk (ofS "X") (ofS "G")]
     [(ofS "X", ofS "A1"), (ofS "X", ofS "B2")] [(ofS "G", ofS "G1")] [] []
     [OutRow.mk (Row.mk (ofS "X") (ofS "G")) (some (ofS "A1")) (some (ofS "G1")),
      OutRow.mk (Row.mk (ofS "X") (ofS "G")) (some (ofS "B2")) (some (ofS "G1"))]
     rfl⟩

/-- C9 counterexample: an input squarely inside the claim's hypothesis
— both match tables are empty, so every matched key trivially occurs at
most once — whose two unmatched records share the normalized company
name `NEWCO`. The name-indexed unmatched series then has duplicate
labels, and `validate_matching` raises `ValueError: cannot reindex from
a duplicate axis`: no output table exists, let alone one with as many
rows as the input. -/
theorem duplicate_unmatched_names_raise :
    (([] : List (Str × Str)).map Prod.fst).Nodup ∧
    (([] : List (Str × Str)).map Prod.fst).Nodup ∧
    validate_matching
      [Row.mk (ofS "NEWCO") (ofS "G1"), Row.mk (ofS "NEWCO") (ofS "G2")]
      [] []
      [URow.mk (Row.mk (ofS "NEWCO") (ofS "G1")) [],
       URow.mk (Row.mk (ofS "NEWCO") (ofS "G2")) []]
      [URow.mk (Row.mk (ofS "NEWCO") (ofS "G1")) [],
       URow.mk (Row.mk (ofS "NEWCO") (ofS "G2")) []]
      = .error PErr.valueError :=
  ⟨by decide, by decide, rfl⟩

/-- C9 amended: row-count preservation needs, in addition to
duplicate-free matched keys, that the normalized company names of the
unmatched company rows are pairwise distinct and likewise the
government names of the unmatched government rows (otherwise
`validate_matching` raises `ValueError`). Under those hypotheses the
merge step returns a table with exactly one row per input row. -/
theorem merges_preserve_row_count (df : List Row) (cm gm : List (Str × Str))
    (uc ug : List URow)
    (hc : (cm.map Prod.fst).Nodup) (hg : (gm.map Prod.fst).Nodup)
    (huc : (uc.map fun u => u.row.company).Nodup)
    (hug : (ug.map fun u => u.row.gov).Nodup) :
    ∃ out, validate_matching df cm gm uc ug = .ok out ∧
      out.length = df.length := by
  refine ⟨mergeGov (mergeCompany df cm) gm,
    validate_matching_eq df cm gm uc ug huc hug, ?_⟩
  rw [merged_rows_length]
  have h1 : ∀ r ∈ df,
      max 1 (matchCount r.company cm) * max 1 (matchCount r.gov gm) = 1 := by
    intro r _
    have a := matchCount_le_one hc r.company
    have b := matchCount_le_one hg r.gov
    have ha : max 1 (matchCount r.company cm) = 1 := by omega
    have hb : max 1 (matchCount r.gov gm) = 1 := by omega
    rw [ha, hb]
  rw [List.map_congr_left h1]
  simp

/-- C9 amended witness: a one-row table, a singleton company match
table, an empty government match table and one unmatched government
row: the merge step returns a table and keeps the one row. -/
theorem merges_preserve_row_count_witness :
    (([(ofS "A", ofS "A1")] : List (Str × Str)).map Prod.fst).Nodup ∧
    (([] : List (Str × Str)).map Prod.fst).Nodup ∧
    (([] : List URow).map fun u => u.row.company).Nodup ∧
    (([URow.mk (Row.mk (ofS "A") (ofS "G")) []] : List URow).map fun u => u.row.gov).Nodup ∧
    (∃ out, validate_matching [Row.mk (ofS "A") (ofS "G")] [(ofS "A", ofS "A1")] []
        [] [URow.mk (Row.mk (ofS "A") (ofS "G")) []] = .ok out ∧
      out.length = ([Row.mk (ofS "A") (ofS "G")] : List Row).length) :=
  ⟨by decide, by decide, by decide, by decide,
   merges_preserve_row_count [Row.mk (ofS "A") (ofS "G")] [(ofS "A", ofS "A1")] []
     [] [URow.mk (Row.mk (ofS "A") (ofS "G")) []]
     (by decide) (by decide) (by decide) (by decide)⟩

/-- C10: `preprocess_dataset` is total only on string name fields — an
uploaded table containing a missing (non-string) value in the `Company`
or `Government entity` column makes it fail (the value reaches
`unidecode.unidecode`, which raises), rather than skipping or passing
the missing value through. -/
theorem preprocess_dataset_fails_on_missing (df : List RawRow) (r : RawRow)
    (hr : r ∈ df) (hmiss : r.company = none ∨ r.gov = none) :
    preprocess_dataset df = .error PErr.missingValue := by
  by_cases hC : ∃ x ∈ df, x.company = none
  · obtain ⟨x, hx, hxc⟩ := hC
    have h1 : mapExcept
        (fun r => match r.company with
          | some c => .ok (preprocess_text c)
          | none => .error PErr.missingValue) df = .error PErr.missingValue := by
      refine mapExcept_error_of_mem _ df x hx (by simp [hxc]) ?_
      intro y _
      cases hy : y.company <;> simp [hy]
    unfold preprocess_dataset
    rw [h1]
  · push_neg at hC
    have hall : ∀ x ∈ df, ∃ b,
        (fun r => match r.company with
          | some c => Except.ok (preprocess_text c)
          | none => Except.error PErr.missingValue) x = .ok b := by
      intro x hx
      cases hy : x.company with
      | none => exact absurd hy (hC x hx)
      | some c => exact ⟨preprocess_text c, by simp [hy]⟩
    obtain ⟨cs, hcs⟩ := mapExcept_ok_of_all _ df hall
    have hg : r.gov = none := by
      rcases hmiss with hcm | hgv
      · exact absurd hcm (hC r hr)
      · exact hgv
    have h2 : mapExcept
        (fun r => match r.gov with
          | some g => .ok (preprocess_text g)
          | none => .error PErr.missingValue) df = .error PErr.missingValue := by
      refine mapExcept_error_of_mem _ df r hr (by simp [hg]) ?_
      intro y _
      cases hy : y.gov <;> simp [hy]
    unfold preprocess_dataset
    rw [hcs, h2]

/-- C2: exact-match precedence. If an output row's (normalized) company
name equals the normalized name of some reference entity, then —
whatever the scorer's fuzzy suggestions and whatever the operator chose
for any record — the row's final `eiti_id_company` is the pre-existing
identifier of a reference entity with exactly that normalized name
(never a fuzzy-accepted or freshly minted identifier). -/
theorem exact_match_final_identifier (scorer : Str → Str → Nat)
    (choiceC choiceG : Nat → Option Str) (df0 : List RawRow)
    (regC regG : List RefEntity) (out : List OutRow) (o : OutRow)
    (e : RefEntity)
    (h : main_pipeline scorer choiceC choiceG df0 regC regG = .ok out)
    (ho : o ∈ out) (he : e ∈ regC)
    (hn : preprocess_text e.name = o.row.company) :
    ∃ eM, eM ∈ regC ∧ preprocess_text eM.name = o.row.company ∧
      o.eidCompany = some eM.eid := by
  obtain ⟨df, _, hout⟩ := main_pipeline_ok h
  subst hout
  obtain ⟨m, hm, hrow, heidc⟩ := mem_mergeGov ho
  obtain ⟨hrdf, hcases⟩ := mem_mergeCompany hm
  have hen : RefEntity.mk (preprocess_text e.name) e.eid ∈ normalizeRegistry regC :=
    List.mem_map.2 ⟨e, he, rfl⟩
  have hname : (RefEntity.mk (preprocess_text e.name) e.eid).name = m.row.company := by
    rw [← hrow]
    exact hn
  have hpair : (m.row.company, e.eid)
      ∈ company_matches df (normalizeRegistry regC) :=
    @company_matches_mem_of df (normalizeRegistry regC) m.row
      (RefEntity.mk (preprocess_text e.name) e.eid) hrdf hen hname
  rcases hcases with ⟨hfil, _⟩ | ⟨p, hp, hp1, hpe⟩
  · exfalso
    have hmem : (m.row.company, e.eid)
        ∈ (company_matches df (normalizeRegistry regC)).filter
          (fun p => p.1 == m.row.company) :=
      List.mem_filter.2 ⟨hpair, by simp⟩
    rw [hfil] at hmem
    simp at hmem
  · obtain ⟨e0, he0, he0n, he0id⟩ := company_matches_mem_inv hp
    rcases List.mem_map.1 he0 with ⟨eM, heM, rfl⟩
    refine ⟨eM, heM, ?_, ?_⟩
    · rw [hrow]
      exact he0n.trans hp1
    · rw [heidc, hpe, ← he0id]

/-- C2 witness: the spec's scenario — registry `{id=A1, name="ACME
CORP"}`, upload `"Acme Corp"` — resolves to `A1` through the full
pipeline. -/
theorem exact_match_final_identifier_witness :
    main_pipeline (fun _ _ => 0) (fun _ => none) (fun _ => none)
      [RawRow.mk (some (ofS "Acme Corp")) (some (ofS "Gov"))]
      [RefEntity.mk (ofS "ACME CORP") (ofS "A1")]
      [RefEntity.mk (ofS "Gov") (ofS "G1")]
      = .ok [OutRow.mk (Row.mk (ofS "ACME CORP") (ofS "GOV"))
          (some (ofS "A1")) (some (ofS "G1"))] ∧
    (∃ eM, eM ∈ [RefEntity.mk (ofS "ACME CORP") (ofS "A1")] ∧
      preprocess_text eM.name
        = (OutRow.mk (Row.mk (ofS "ACME CORP") (ofS "GOV"))
            (some (ofS "A1")) (some (ofS "G1"))).row.company ∧
      (OutRow.mk (Row.mk (ofS "ACME CORP") (ofS "GOV"))
          (some (ofS "A1")) (some (ofS "G1"))).eidCompany = some eM.eid) :=
  ⟨rfl,
   exact_match_final_identifier (fun _ _ => 0) (fun _ => none) (fun _ => none)
     [RawRow.mk (some (ofS "Acme Corp")) (some (ofS "Gov"))]
     [RefEntity.mk (ofS "ACME CORP") (ofS "A1")]
     [RefEntity.mk (ofS "Gov") (ofS "G1")]
     [OutRow.mk (Row.mk (ofS "ACME CORP") (ofS "GOV"))
       (some (ofS "A1")) (some (ofS "G1"))]
     (OutRow.mk (Row.mk (ofS "ACME CORP") (ofS "GOV"))
       (some (ofS "A1")) (some (ofS "G1")))
     (RefEntity.mk (ofS "ACME CORP") (ofS "A1"))
     rfl (by decide) (by decide) (by decide)⟩

/-- C10 witness: a one-row table whose `Company` cell is missing makes
`preprocess_dataset` fail. -/
theorem preprocess_dataset_fails_on_missing_witness :
    (RawRow.mk none (some (ofS "G")) ∈ [RawRow.mk none (some (ofS "G"))]) ∧
    ((RawRow.mk none (some (ofS "G"))).company = none ∨
      (RawRow.mk none (some (ofS "G"))).gov = none) ∧
    preprocess_dataset [RawRow.mk none (some (ofS "G"))] = .error PErr.missingValue :=
  ⟨by decide, by decide,
   preprocess_dataset_fails_on_missing [RawRow.mk none (some (ofS "G"))]
     (RawRow.mk none (some (ofS "G"))) (by decide) (by decide)⟩

end DataCleaner
